import Mathlib

/-!
Verification development for the Hidayah Quran-RAG pipeline.

The TypeScript sources are shallowly embedded: strings are Lean `String`
(lists of characters), JavaScript numbers appearing in parsed LLM output are
modelled as `Option ℚ` (`none` plays the role of `NaN`), the remote row store
and the LLM completion collaborator are oracle parameters, and the
`"surah:ayah"` dedup keys of the source are modelled as `(surah, ayah)` pairs
(the key encoding is injective, so the two are interchangeable).
-/

/-- A verse reference `(surah, ayah)`; uniqueness key is the pair itself. -/
structure VerseRef where
  surah : Nat
  ayah : Nat
deriving DecidableEq, Repr

/-- A citation has the same shape as a verse reference. -/
abbrev Citation := VerseRef

/-- JavaScript `\d`. -/
def isDig (c : Char) : Bool := c.isDigit

/-- Value of a list of decimal digit characters (`parseInt` on 1-3 digits). -/
def digitsToNat (l : List Char) : Nat :=
  l.foldl (fun n c => 10 * n + (c.toNat - 48)) 0

/-- The optional `(?:[-–](\d{1,3}))?` part of the citation pattern.
Returns the captured end-ayah (if any) and the remaining characters. -/
def rangeStep (l4 : List Char) : Option Nat × List Char :=
  match l4 with
  | d :: l4' =>
    if d = '-' ∨ d = '–' then
      let es := l4'.takeWhile isDig
      if es = [] then (none, l4)
      else (some (digitsToNat (es.take 3)), es.drop 3 ++ l4'.dropWhile isDig)
    else (none, l4)
  | [] => (none, [])

/-- The optional closing `[\]\)]?` of the citation pattern. -/
def closeStep (l5 : List Char) : List Char :=
  match l5 with
  | c :: rest => if c = ']' ∨ c = ')' then rest else l5
  | [] => []

/-- Matching `(\d{1,3}):(\d{1,3})(?:[-–](\d{1,3}))?[\]\)]?` at the start of
`l1` (after the optional opening bracket), with JavaScript greedy semantics:
a digit run longer than 3 before the colon can never back off to expose the
colon, while after the colon only the first `min 3` digits are captured.
Returns surah value, start ayah, optional end ayah, and the rest of the
input after the match. -/
def matchTail (l1 : List Char) : Option (Nat × Nat × Option Nat × List Char) :=
  let ds := l1.takeWhile isDig
  if ds = [] ∨ 3 < ds.length then none
  else
    match l1.dropWhile isDig with
    | [] => none
    | c2 :: l3 =>
      if c2 = ':' then
        let as := l3.takeWhile isDig
        if as = [] then none
        else
          let st := rangeStep (as.drop 3 ++ l3.dropWhile isDig)
          some (digitsToNat ds, digitsToNat (as.take 3), st.1, closeStep st.2)
      else none

/-- One attempt of `/[\[\(]?(\d{1,3}):(\d{1,3})(?:[-–](\d{1,3}))?[\]\)]?/`
at the start of `l`. -/
def matchAt (l : List Char) : Option (Nat × Nat × Option Nat × List Char) :=
  match l with
  | [] => none
  | c :: cs => if c = '[' ∨ c = '(' then matchTail cs else matchTail (c :: cs)

/-- The loop body of `parseCitations`: validate `1 ≤ surah ≤ 114`,
`1 ≤ startAyah ≤ 286` and expand the range `[startAyah, min endAyah 286]`. -/
def expandCitation (surah startAyah : Nat) (endAyah? : Option Nat) : List Citation :=
  let endAyah := endAyah?.getD startAyah
  if 1 ≤ surah ∧ surah ≤ 114 ∧ 1 ≤ startAyah ∧ startAyah ≤ 286 then
    (List.range' startAyah (min endAyah 286 + 1 - startAyah)).map
      (fun k => ⟨surah, k⟩)
  else []

/-- The `pattern.exec` scan loop of `parseCitations`.  Each successful match
consumes at least three characters, so `fuel := length of the text` always
suffices. -/
def scanCitations : Nat → List Char → List Citation
  | 0, _ => []
  | _, [] => []
  | fuel + 1, c :: cs =>
    match matchAt (c :: cs) with
    | some (s, a, e?, rest) => expandCitation s a e? ++ scanCitations fuel rest
    | none => scanCitations fuel cs

/-- `parseCitations` (src/lib/citations.ts, range-aware version): extract all
`(surah:ayah)` / `(surah:ayah-ayah)` citation tokens from free text. -/
def parseCitations (text : String) : List Citation :=
  scanCitations text.data.length text.data

/-- Matching the bracket-mandatory test pattern
`[\[\(](\d{1,3}):(\d{1,3})(?:[-–](\d{1,3}))?[\]\)]` after its opening
bracket.  Digit runs longer than 3 make every backtracking alternative end
on a digit, so they can never be followed by the required delimiter. -/
def matchBrTail (l1 : List Char) : Bool :=
  let ds := l1.takeWhile isDig
  if ds = [] ∨ 3 < ds.length then false
  else
    match l1.dropWhile isDig with
    | [] => false
    | c2 :: l3 =>
      if c2 = ':' then
        let as := l3.takeWhile isDig
        if as = [] ∨ 3 < as.length then false
        else
          match l3.dropWhile isDig with
          | d :: r3 =>
            if d = ']' ∨ d = ')' then true
            else if d = '-' ∨ d = '–' then
              let es := r3.takeWhile isDig
              if es = [] ∨ 3 < es.length then false
              else
                match r3.dropWhile isDig with
                | c :: _ => decide (c = ']' ∨ c = ')')
                | [] => false
            else false
          | [] => false
      else false

/-- One attempt of the bracket-mandatory citation test at the start of `l`. -/
def matchBrAt (l : List Char) : Bool :=
  match l with
  | [] => false
  | c :: cs => if c = '[' ∨ c = '(' then matchBrTail cs else false

/-- `RegExp.test`: does the pattern match at some position? -/
def hasCitScan : List Char → Bool
  | [] => false
  | c :: cs => matchBrAt (c :: cs) || hasCitScan cs

/-- `paragraphHasCitation` (src/lib/citations.ts, range-aware version). -/
def paragraphHasCitation (paragraph : String) : Bool :=
  hasCitScan paragraph.data

/-- JavaScript `String.prototype.trim` (whitespace from both ends),
computed on the character list. -/
def jsTrim (s : String) : String :=
  String.mk
    (((s.data.dropWhile Char.isWhitespace).reverse.dropWhile
      Char.isWhitespace).reverse)

/-- JavaScript `String.prototype.trimEnd`. -/
def jsTrimEnd (s : String) : String :=
  String.mk ((s.data.reverse.dropWhile Char.isWhitespace).reverse)

/-- JavaScript `String.prototype.toLowerCase`. -/
def strToLower (s : String) : String := String.mk (s.data.map Char.toLower)

/-- Split on maximal runs of two or more newlines (`text.split(/\n\n+/)`).
Each step consumes at least one character, so `fuel := length` suffices. -/
def splitParasAux : Nat → List Char → List Char → List (List Char)
  | 0, acc, _ => [acc.reverse]
  | _ + 1, acc, [] => [acc.reverse]
  | fuel + 1, acc, '\n' :: '\n' :: rest =>
    acc.reverse :: splitParasAux fuel [] (rest.dropWhile (fun c => c = '\n'))
  | fuel + 1, acc, c :: rest => splitParasAux fuel (c :: acc) rest

/-- `splitIntoParagraphs` (src/lib/citations.ts): split on blank-line runs,
trim each piece, drop empties. -/
def splitIntoParagraphs (text : String) : List String :=
  ((splitParasAux text.data.length [] text.data).map
    (fun l => jsTrim (String.mk l))).filter (fun p => p ≠ "")

/-- One step of `dedupeRefs`: keep the reference unless its key is seen. -/
def dedupeStep (acc : List VerseRef × List (Nat × Nat)) (ref : VerseRef) :
    List VerseRef × List (Nat × Nat) :=
  if acc.2.contains (ref.surah, ref.ayah) then acc
  else (acc.1 ++ [ref], acc.2 ++ [(ref.surah, ref.ayah)])

/-- `dedupeRefs` (src/lib/citations.ts): stable dedup by `(surah, ayah)`. -/
def dedupeRefs (refs : List VerseRef) : List VerseRef :=
  (refs.foldl dedupeStep ([], [])).1

/-- JSON values as produced by `JSON.parse`.  Numbers are exact rationals
(every decimal literal is a rational; the claims only involve small
integers, where the IEEE double of the source is also exact). -/
inductive JsonVal where
  | null : JsonVal
  | jbool : Bool → JsonVal
  | num : ℚ → JsonVal
  | str : String → JsonVal
  | arr : List JsonVal → JsonVal
  | obj : List (String × JsonVal) → JsonVal

/-- JSON whitespace (exactly space, tab, newline, carriage return). -/
def jsonWs (c : Char) : Bool :=
  c == ' ' || c == '\t' || c == '\n' || c == '\r'

/-- Skip JSON whitespace. -/
def skipWs (l : List Char) : List Char := l.dropWhile jsonWs

/-- Hexadecimal digit value. -/
def hexVal (c : Char) : Option Nat :=
  if '0' ≤ c ∧ c ≤ '9' then some (c.toNat - 48)
  else if 'a' ≤ c ∧ c ≤ 'f' then some (c.toNat - 87)
  else if 'A' ≤ c ∧ c ≤ 'F' then some (c.toNat - 55)
  else none

/-- Turn a Unicode code point into a `Char`, mapping ill-formed lone
surrogates to U+FFFD (Lean characters are scalar values). -/
def codeToChar (n : Nat) : Char :=
  if n < 0xd800 ∨ (0xdfff < n ∧ n < 0x110000) then Char.ofNat n
  else Char.ofNat 0xfffd

/-- UTF-16 code units of a character, in reverse order (for accumulation). -/
def utf16Rev (c : Char) : List Nat :=
  if c.toNat < 0x10000 then [c.toNat]
  else
    [0xdc00 + (c.toNat - 0x10000) % 0x400, 0xd800 + (c.toNat - 0x10000) / 0x400]

/-- Decode a sequence of UTF-16 code units (combining surrogate pairs,
replacing lone surrogates by U+FFFD). -/
def decodeUnits : List Nat → List Char
  | [] => []
  | [u] => [codeToChar u]
  | u :: v :: us' =>
    if 0xd800 ≤ u ∧ u ≤ 0xdbff then
      if 0xdc00 ≤ v ∧ v ≤ 0xdfff then
        codeToChar (0x10000 + (u - 0xd800) * 0x400 + (v - 0xdc00))
          :: decodeUnits us'
      else codeToChar u :: decodeUnits (v :: us')
    else codeToChar u :: decodeUnits (v :: us')

/-- Parse the body of a JSON string literal (after the opening quote),
accumulating UTF-16 code units in reverse, JavaScript-style.  Handles the
escape set of the JSON grammar and rejects raw control characters. -/
def parseStrBody : List Nat → List Char → Option (String × List Char)
  | acc, '"' :: r => some (String.mk (decodeUnits acc.reverse), r)
  | acc, '\\' :: e :: r =>
    match e with
    | '"' => parseStrBody (34 :: acc) r
    | '\\' => parseStrBody (92 :: acc) r
    | '/' => parseStrBody (47 :: acc) r
    | 'b' => parseStrBody (8 :: acc) r
    | 'f' => parseStrBody (12 :: acc) r
    | 'n' => parseStrBody (10 :: acc) r
    | 'r' => parseStrBody (13 :: acc) r
    | 't' => parseStrBody (9 :: acc) r
    | 'u' =>
      match r with
      | a :: b :: c :: d :: r' =>
        match hexVal a, hexVal b, hexVal c, hexVal d with
        | some x, some y, some z, some w =>
          parseStrBody ((((x * 16 + y) * 16 + z) * 16 + w) :: acc) r'
        | _, _, _, _ => none
      | _ => none
    | _ => none
  | acc, c :: r =>
    if c.toNat < 0x20 then none else parseStrBody (utf16Rev c ++ acc) r
  | _, [] => none

/-- Parse a JSON number per the JSON grammar
(`-? (0|[1-9][0-9]*) frac? exp?`), returning its exact rational value. -/
def parseNumTok (l : List Char) : Option (ℚ × List Char) :=
  let (neg, l1) := match l with
    | '-' :: r => (true, r)
    | _ => (false, l)
  match l1 with
  | c :: cs =>
    if ¬ (isDig c) then none
    else
      let (ip, r1) :=
        if c = '0' then (([c] : List Char), cs)
        else (l1.takeWhile isDig, l1.dropWhile isDig)
      match (match r1 with
             | '.' :: r1' =>
               let fd := r1'.takeWhile isDig
               if fd = [] then none else some (fd, r1'.dropWhile isDig)
             | _ => some (([] : List Char), r1)) with
      | none => none
      | some (fp, r2) =>
        let (ex, r3) :=
          match r2 with
          | 'e' :: r2' | 'E' :: r2' =>
            let (esgn, r2'') := match r2' with
              | '+' :: t => ((1 : Int), t)
              | '-' :: t => ((-1 : Int), t)
              | _ => ((1 : Int), r2')
            let ed := r2''.takeWhile isDig
            if ed = [] then ((0 : Int), r2)
            else (esgn * (digitsToNat ed : Int), r2''.dropWhile isDig)
          | _ => ((0 : Int), r2)
        let base : ℚ :=
          (digitsToNat ip : ℚ) + (digitsToNat fp : ℚ) / (10 : ℚ) ^ fp.length
        some ((if neg then -base else base) * (10 : ℚ) ^ ex, r3)
  | [] => none

mutual

/-- Parse one JSON value (leading whitespace allowed). -/
def parseVal : Nat → List Char → Option (JsonVal × List Char)
  | 0, _ => none
  | fuel + 1, l =>
    match skipWs l with
    | 'n' :: 'u' :: 'l' :: 'l' :: r => some (.null, r)
    | 't' :: 'r' :: 'u' :: 'e' :: r => some (.jbool true, r)
    | 'f' :: 'a' :: 'l' :: 's' :: 'e' :: r => some (.jbool false, r)
    | '"' :: r => (parseStrBody [] r).map (fun p => (.str p.1, p.2))
    | '[' :: r =>
      match skipWs r with
      | ']' :: r' => some (.arr [], r')
      | _ => (parseArrItems fuel r).map (fun p => (.arr p.1, p.2))
    | '{' :: r =>
      match skipWs r with
      | '}' :: r' => some (.obj [], r')
      | _ => (parseObjItems fuel r).map (fun p => (.obj p.1, p.2))
    | l' => (parseNumTok l').map (fun p => (.num p.1, p.2))

/-- Parse a non-empty comma-separated list of array items, then `]`. -/
def parseArrItems : Nat → List Char → Option (List JsonVal × List Char)
  | 0, _ => none
  | fuel + 1, l =>
    match parseVal fuel l with
    | none => none
    | some (v, r) =>
      match skipWs r with
      | ',' :: r' =>
        (parseArrItems fuel r').map (fun p => (v :: p.1, p.2))
      | ']' :: r' => some ([v], r')
      | _ => none

/-- Parse a non-empty comma-separated list of object members, then the
closing brace. -/
def parseObjItems : Nat → List Char → Option (List (String × JsonVal) × List Char)
  | 0, _ => none
  | fuel + 1, l =>
    match skipWs l with
    | '"' :: r =>
      match parseStrBody [] r with
      | none => none
      | some (k, r1) =>
        match skipWs r1 with
        | ':' :: r2 =>
          match parseVal fuel r2 with
          | none => none
          | some (v, r3) =>
            match skipWs r3 with
            | ',' :: r4 =>
              (parseObjItems fuel r4).map (fun p => ((k, v) :: p.1, p.2))
            | '}' :: r4 => some ([(k, v)], r4)
            | _ => none
        | _ => none
    | _ => none

end

/-- `JSON.parse`: parse one value and require only whitespace after it.
The fuel `2 * length + 4` dominates the recursion depth (every two fuel
steps consume at least one character). -/
def jsonParse (s : String) : Option JsonVal :=
  match parseVal (2 * s.length + 4) s.data with
  | some (v, rest) => if skipWs rest = [] then some v else none
  | none => none

/-- Is a JSON value the `null` literal? -/
def isNullJ : JsonVal → Bool
  | .null => true
  | _ => false

/-- JavaScript property access `v[key]` (`none` plays `undefined`); on a
parsed object literal, the last duplicate key wins, as in `JSON.parse`. -/
def jsGet (v : JsonVal) (key : String) : Option JsonVal :=
  match v with
  | .obj fs => fs.foldl (fun acc p => if p.1 = key then some p.2 else acc) none
  | _ => none

/-- JavaScript truthiness of a JSON value. -/
def jsTruthy : JsonVal → Bool
  | .null => false
  | .jbool b => b
  | .num q => decide (q ≠ 0)
  | .str s => decide (s ≠ "")
  | .arr _ => true
  | .obj _ => true

/-- Display form of a number (exact integers render as in JavaScript; the
claims never depend on the rendering of non-integers). -/
def ratToDisplay (q : ℚ) : String :=
  if q.den = 1 then toString q.num else toString q.num ++ "/" ++ toString q.den

mutual

/-- JavaScript `String(v)` for JSON values (`Array.prototype.toString` is
`join(",")` with `null` rendered empty; objects give "[object Object]"). -/
def jsToString : JsonVal → String
  | .null => "null"
  | .jbool b => if b then "true" else "false"
  | .num q => ratToDisplay q
  | .str s => s
  | .arr l => String.intercalate "," (jsToStringList l)
  | .obj _ => "[object Object]"

/-- Array elements under `join(",")`, `null` rendered empty. -/
def jsToStringList : List JsonVal → List String
  | [] => []
  | v :: vs => (if isNullJ v then "" else jsToString v) :: jsToStringList vs

end

/-- JavaScript `Number(string)`: trimmed empty string is `0`, otherwise the
decimal literal grammar; anything else is `NaN` (`none`). -/
def strToNumber (s : String) : Option ℚ :=
  let t := jsTrim s
  if t = "" then some 0
  else
    let (neg, l1) :=
      match t.data with
      | '-' :: r => (true, r)
      | '+' :: r => (false, r)
      | l => (false, l)
    let ip := l1.takeWhile isDig
    let r1 := l1.dropWhile isDig
    let (fp, r2) :=
      match r1 with
      | '.' :: r1' => (r1'.takeWhile isDig, r1'.dropWhile isDig)
      | _ => (([] : List Char), r1)
    if ip = [] ∧ fp = [] then none
    else
      let base : ℚ :=
        (digitsToNat ip : ℚ) + (digitsToNat fp : ℚ) / (10 : ℚ) ^ fp.length
      let signed := if neg then -base else base
      match r2 with
      | [] => some signed
      | 'e' :: r2' | 'E' :: r2' =>
        let (esgn, r2'') :=
          match r2' with
          | '+' :: u => ((1 : Int), u)
          | '-' :: u => ((-1 : Int), u)
          | _ => ((1 : Int), r2')
        let ed := r2''.takeWhile isDig
        if ed = [] ∨ r2''.dropWhile isDig ≠ [] then none
        else some (signed * (10 : ℚ) ^ (esgn * (digitsToNat ed : Int)))
      | _ => none

/-- JavaScript `Number(v)` (`none` plays `NaN`); arrays coerce through their
string form, objects give `NaN`. -/
def jsToNumber (v : JsonVal) : Option ℚ :=
  match v with
  | .null => some 0
  | .jbool b => some (if b then 1 else 0)
  | .num q => some q
  | .str s => strToNumber s
  | .arr l => strToNumber (jsToString (.arr l))
  | .obj _ => none

/-- `Number(v)` where `v` may be `undefined` (`Number(undefined)` is `NaN`). -/
def jsToNumberO : Option JsonVal → Option ℚ
  | none => none
  | some v => jsToNumber v

/-- JavaScript `===` on numbers (`NaN` equals nothing, itself included). -/
def jsStrictEqNum (a b : Option ℚ) : Bool :=
  match a, b with
  | some x, some y => decide (x = y)
  | _, _ => false

/-- Result shape of `validateCitationsAgainstContext`. -/
structure ValidationResult where
  valid : Bool
  invalidCitations : List Citation
deriving DecidableEq, Repr

/-- `validateCitationsAgainstContext` (src/lib/citations.ts). -/
def validateCitationsAgainstContext (answer : String)
    (contextRefs : List VerseRef) : ValidationResult :=
  let citations := parseCitations answer
  let contextSet := contextRefs.map (fun r => (r.surah, r.ayah))
  let invalid := citations.filter
    (fun c => !(contextSet.contains (c.surah, c.ayah)))
  ⟨invalid.isEmpty, invalid⟩

/-- A retrieved verse paired with its Arabic text, similarity score and
optional annotation metadata (src/lib/types.ts `PairedVerse`). -/
structure PairedVerse where
  ref : String
  surah : Nat
  ayah : Nat
  arabic : String
  english : String
  similarity : ℚ
  context_summary : Option String := none
  theme : Option String := none
deriving DecidableEq, Repr

/-- A citation as it appears in a `ChatResponse`: JavaScript numbers
(`Number(...)` coercions, so possibly `NaN`). -/
structure JsCitation where
  surah : Option ℚ
  ayah : Option ℚ
deriving DecidableEq, Repr

/-- `{surah, ayah}` lifted from parser output into JavaScript numbers. -/
def natCit (c : Citation) : JsCitation :=
  ⟨some (c.surah : ℚ), some (c.ayah : ℚ)⟩

/-- `ChatResponse` (src/lib/types.ts): `uncertainty` is `none` for `null`. -/
structure ChatResponse where
  answer_markdown : String
  citations : List JsCitation
  uncertainty : Option JsonVal

/-- A caller-supplied conversation turn. -/
structure ConversationMessage where
  role : String
  content : String
deriving DecidableEq, Repr

/-- The code-fence stripping prologue of `parseJsonResponse`. -/
def stripFences (content : String) : String :=
  let j1 := jsTrim content
  let j2 :=
    if "```json".data.isPrefixOf j1.data then j1.drop 7
    else if "```".data.isPrefixOf j1.data then j1.drop 3
    else j1
  let j3 :=
    if "```".data.reverse.isPrefixOf j2.data.reverse then j2.dropRight 3
    else j2
  jsTrim j3

/-- The advisory set when citations fall outside the retrieved context. -/
def advisoryMsg : String :=
  "Some citations may reference verses not in the current context."

/-- The fixed uncertainty of the raw-text fallback. -/
def parseFailMsg : String :=
  "Response parsing issue - please verify the citations manually."

/-- The `citations` field of the parsed payload when it is an array
(`Array.isArray`), else the empty list. -/
def citEntries (parsed : JsonVal) : List JsonVal :=
  match jsGet parsed "citations" with
  | some (.arr es) => es
  | _ => []

/-- `String(parsed.answer_markdown || "")`. -/
def answerMd (parsed : JsonVal) : String :=
  jsToString
    (match jsGet parsed "answer_markdown" with
     | some v => if jsTruthy v then v else .str ""
     | none => .str "")

/-- `parsed.uncertainty || null`: the payload's own uncertainty if truthy. -/
def uncField (parsed : JsonVal) : Option JsonVal :=
  match jsGet parsed "uncertainty" with
  | some u => if jsTruthy u then some u else none
  | none => none

/-- One step of the citation-union loop: append a text-extracted citation
unless a strictly-equal one is already present. -/
def insertTextCit (acc : List JsCitation) (tc : Citation) : List JsCitation :=
  if acc.any (fun c =>
      jsStrictEqNum c.surah (some (tc.surah : ℚ)) &&
      jsStrictEqNum c.ayah (some (tc.ayah : ℚ))) then acc
  else acc ++ [natCit tc]

/-- `parseJsonResponse` (src/lib/generation.ts): strip fences, attempt
`JSON.parse`; on success coerce the fields, union structured citations with
citations re-extracted from the text, and flag out-of-context citations
with an advisory uncertainty; on failure (including the `TypeError` thrown
by property access on a `null` payload or a `null` citations entry, caught
by the same `try`) fall back to the raw text. -/
def parseJsonResponse (content : String) (context : List PairedVerse) :
    ChatResponse :=
  let jsonStr := stripFences content
  let fallback : ChatResponse :=
    { answer_markdown := content
      citations := (parseCitations content).map natCit
      uncertainty := some (.str parseFailMsg) }
  match jsonParse jsonStr with
  | none => fallback
  | some parsed =>
    if isNullJ parsed then fallback
    else if (citEntries parsed).any isNullJ then fallback
    else
      let am := answerMd parsed
      let structured := (citEntries parsed).map
        (fun e =>
          (⟨jsToNumberO (jsGet e "surah"), jsToNumberO (jsGet e "ayah")⟩ :
            JsCitation))
      let allCitations := (parseCitations am).foldl insertTextCit structured
      let contextRefs := context.map (fun c => (⟨c.surah, c.ayah⟩ : VerseRef))
      let validation := validateCitationsAgainstContext am contextRefs
      { answer_markdown := am
        citations := allCitations
        uncertainty :=
          if validation.valid = false ∧ (uncField parsed).isNone then
            some (.str advisoryMsg)
          else uncField parsed }

/-- `generateAnswer` modelled with the completion collaborator's output as
an oracle string: the LLM content is parsed against the context. -/
def generateAnswer (genOut : String) (context : List PairedVerse) :
    ChatResponse :=
  parseJsonResponse genOut context

/-- `verifyAnswer` modelled with the verification pass's completion output
as an oracle string. -/
def verifyAnswer (verifyOut : String) (context : List PairedVerse) :
    ChatResponse :=
  parseJsonResponse verifyOut context

/-- A pipeline run together with the number of completion calls made by
the generation pass and by the verification pass. -/
structure PipelineResult where
  response : ChatResponse
  genCalls : Nat
  verifyCalls : Nat

/-- The explorer-navigation hint appended when citations exist. -/
def explorerHint : String :=
  "\n\n---\n\n**View these verses in context** in the Ayah Explorer tab above."

/-- The fixed empty-context response of `generateVerifiedAnswer`. -/
def emptyContextResponse : ChatResponse :=
  { answer_markdown :=
      "I could not find relevant Quran verses to answer your question. Could you please rephrase or provide more context about what you're looking for?"
    citations := []
    uncertainty := some (.str "No relevant verses found in the database.") }

/-- `generateVerifiedAnswer` (src/lib/generation.ts): empty-context short
circuit, generation pass, paragraph-citation check, conditional single
verification pass, explorer hint.  `genOut` and `verifyOut` are the oracle
outputs of the two possible completion calls; the result records how many
times each collaborator was invoked. -/
def generateVerifiedAnswer (genOut verifyOut : String) (question : String)
    (context : List PairedVerse) (history : List ConversationMessage) :
    PipelineResult :=
  if context.length = 0 then
    { response := emptyContextResponse, genCalls := 0, verifyCalls := 0 }
  else
    let draftAnswer := generateAnswer genOut context
    let paragraphs := splitIntoParagraphs draftAnswer.answer_markdown
    let allParagraphsHaveCitations := paragraphs.all paragraphHasCitation
    let st :=
      if allParagraphsHaveCitations = false ∨ draftAnswer.citations.length = 0
      then (verifyAnswer verifyOut context, 1)
      else (draftAnswer, 0)
    let finalAnswer :=
      if st.1.citations.length > 0 then
        { st.1 with
          answer_markdown := jsTrimEnd st.1.answer_markdown ++ explorerHint }
      else st.1
    { response := finalAnswer, genCalls := 1, verifyCalls := st.2 }

/-- The four event kinds of the streaming protocol (src/lib/streaming.ts). -/
inductive StreamEvent where
  | context : List PairedVerse → StreamEvent
  | text : String → StreamEvent
  | done : List Citation → String → StreamEvent
  | error : String → StreamEvent
deriving DecidableEq, Repr

/-- `streamChatResponse` modelled on the delta contents of the completion
stream: only truthy (non-empty) fragments are yielded. -/
def streamChatResponse (deltas : List String) : List String :=
  deltas.filter (fun c => c ≠ "")

/-- The body of `createStreamingResponse` after the context event: each
yielded chunk is appended to `fullContent` and re-emitted as a `text`
event; at the end either a `done` event (citations re-derived from the full
concatenation) or, if the completion failed after these chunks, an `error`
event. -/
def streamBody : List String → String → Option String → List StreamEvent
  | [], acc, none => [.done (parseCitations acc) acc]
  | [], _, some m => [.error m]
  | c :: cs, acc, err => .text c :: streamBody cs (acc ++ c) err

/-- `createStreamingResponse` (src/lib/streaming.ts): the emitted event
sequence, given the retrieved context, the stream's delta contents and an
optional failure after them. -/
def createStreamingResponse (context : List PairedVerse)
    (deltas : List String) (err : Option String) : List StreamEvent :=
  .context context :: streamBody (streamChatResponse deltas) "" err

/-- A row returned by the vector-search collaborator. -/
structure RetrievalResult where
  surah : Nat
  ayah : Nat
  content : String
  similarity : ℚ
deriving DecidableEq, Repr

/-- A row of the `verse_context` annotation table (columns are nullable). -/
structure VerseContextRow where
  context_summary : Option String
  theme : Option String
deriving DecidableEq, Repr

/-- The row store, as point lookups by `(surah, ayah)`: English text,
Arabic text, and annotation rows. -/
structure VerseStore where
  en : Nat → Nat → Option String
  ar : Nat → Nat → Option String
  ctx : Nat → Nat → Option VerseContextRow

/-- The display reference string of a verse. -/
def refStr (s a : Nat) : String := "(" ++ toString s ++ ":" ++ toString a ++ ")"

/-- The verse references requested by `expandPassages`: each anchor's
`ayah ± 2`, clamped to positive ayah numbers. -/
def passageRefsToFetch (anchors : List PairedVerse) : List VerseRef :=
  anchors.flatMap (fun a =>
    ([-2, -1, 0, 1, 2] : List Int).filterMap (fun off =>
      let ay := (a.ayah : Int) + off
      if ay > 0 then some ⟨a.surah, ay.toNat⟩ else none))

/-- Lexicographic order on verse references (the store's `ORDER BY surah,
ayah`). -/
def refLeB (a b : VerseRef) : Bool :=
  decide (a.surah < b.surah ∨ (a.surah = b.surah ∧ a.ayah ≤ b.ayah))

/-- Insertion into a sorted list. -/
def insertSorted (le : α → α → Bool) (x : α) : List α → List α
  | [] => [x]
  | y :: ys => if le x y then x :: y :: ys else y :: insertSorted le x ys

/-- Insertion sort (the model of the store's ordered result set). -/
def sortLe (le : α → α → Bool) (l : List α) : List α :=
  l.foldr (insertSorted le) []

/-- One step of the insertion-ordered map built by `expandPassages`: every
row it constructs carries `similarity := 1` and no annotation metadata. -/
def insertPassageRow (store : VerseStore)
    (acc : List PairedVerse × List (Nat × Nat)) (rc : VerseRef × String) :
    List PairedVerse × List (Nat × Nat) :=
  if acc.2.contains (rc.1.surah, rc.1.ayah) then acc
  else
    (acc.1 ++
      [{ ref := refStr rc.1.surah rc.1.ayah
         surah := rc.1.surah
         ayah := rc.1.ayah
         arabic := (store.ar rc.1.surah rc.1.ayah).getD ""
         english := rc.2
         similarity := 1 }],
     acc.2 ++ [(rc.1.surah, rc.1.ayah)])

/-- `expandPassages` (src/lib/retrieval.ts): fetch the ±2 window around
every anchor from the English store (ordered by surah, ayah), pair with
Arabic text, and build the result through an insertion-ordered map; every
row is constructed fresh with `similarity := 1` and no annotation
metadata. -/
def expandPassages (store : VerseStore) (anchors : List PairedVerse) :
    List PairedVerse :=
  let uniqueRefs := dedupeRefs (passageRefsToFetch anchors)
  let enData := sortLe (fun x y => refLeB x.1 y.1)
    (uniqueRefs.filterMap
      (fun r => (store.en r.surah r.ayah).map (fun c => (r, c))))
  (enData.foldl (insertPassageRow store) ([], [])).1

/-- The anchor `PairedVerse` built for one search result, carrying the
search similarity and the (truthiness-filtered) annotation metadata. -/
def buildAnchor (store : VerseStore) (r : RetrievalResult) : PairedVerse :=
  let ctxRow := store.ctx r.surah r.ayah
  let cs : Option String :=
    match ctxRow with
    | some row =>
      if row.context_summary.getD "" = "" then none
      else some (row.context_summary.getD "")
    | none => none
  let th : Option String :=
    match ctxRow with
    | some row =>
      match row.theme with
      | some t => if t = "" then none else some t
      | none => none
    | none => none
  { ref := refStr r.surah r.ayah, surah := r.surah, ayah := r.ayah,
    arabic := (store.ar r.surah r.ayah).getD "", english := r.content,
    similarity := r.similarity, context_summary := cs, theme := th }

/-- `retrievePairedContext` (src/lib/retrieval.ts, reranking disabled, the
configured path): build annotated anchors from the search results, then
return their passage expansion.  The vector-search collaborator's output is
the `searchResults` oracle. -/
def retrievePairedContext (store : VerseStore)
    (searchResults : List RetrievalResult) : List PairedVerse :=
  if searchResults.length = 0 then []
  else expandPassages store (searchResults.map (buildAnchor store))

/-- The WH-words and auxiliaries of the question test
`/^(what|how|why|when|where|who|which|is|are|does|do|can|should|will|would)\b/i`. -/
def questionWords : List String :=
  ["what", "how", "why", "when", "where", "who", "which", "is", "are",
   "does", "do", "can", "should", "will", "would"]

/-- JavaScript `\w`. -/
def isWordChar (c : Char) : Bool := c.isAlpha || c.isDigit || c == '_'

/-- Case-folded character list of a string. -/
def lcList (s : String) : List Char := s.data.map Char.toLower

/-- Does the query start with a question word followed by a `\b` boundary? -/
def startsQuestionWord (s : String) : Bool :=
  questionWords.any (fun w =>
    let l := lcList s
    w.data.isPrefixOf l &&
      (match l.drop w.length with
       | [] => true
       | c :: _ => !(isWordChar c)))

/-- Does `needle` occur as a contiguous segment of the list? -/
def hasSeg (needle : List Char) : List Char → Bool
  | [] => needle.isEmpty
  | c :: cs => needle.isPrefixOf (c :: cs) || hasSeg needle cs

/-- The domain terms of `/quran|islam|allah|muslim|ayah|surah|verse/i`. -/
def quranTerms : List String :=
  ["quran", "islam", "allah", "muslim", "ayah", "surah", "verse"]

/-- Case-insensitive domain-term mention test. -/
def hasQuranMention (s : String) : Bool :=
  quranTerms.any (fun w => hasSeg w.data (lcList s))

/-- JavaScript `\s` (restricted to the whitespace Lean recognizes). -/
def jsWS (c : Char) : Bool := c.isWhitespace

/-- Number of maximal non-whitespace runs, tracked with an in-word flag. -/
def countWordsAux : Bool → List Char → Nat
  | _, [] => 0
  | inWord, c :: cs =>
    if jsWS c then countWordsAux false cs
    else (if inWord then 0 else 1) + countWordsAux true cs

/-- Number of maximal non-whitespace runs. -/
def countWords (l : List Char) : Nat := countWordsAux false l

/-- `trimmed.split(/\s+/).length`: the empty string splits to `[""]`. -/
def wordCountJS (s : String) : Nat :=
  if s = "" then 1 else countWords s.data

/-- The topic nouns of the `looksLikeTopic` exclusion pattern. -/
def topicNouns : List String :=
  ["concept", "meaning", "importance", "role", "purpose", "ruling", "view",
   "stance", "position", "topic"]

/-- Match `(concept|meaning|...)\s+of\b` at the start of a case-folded
character list. -/
def matchNounOf (l : List Char) : Bool :=
  topicNouns.any (fun n =>
    n.data.isPrefixOf l &&
      (let r := l.drop n.length
       decide ((r.takeWhile jsWS).length ≥ 1) &&
         (let r2 := r.dropWhile jsWS
          (['o', 'f'] : List Char).isPrefixOf r2 &&
            (match r2.drop 2 with
             | [] => true
             | c :: _ => !(isWordChar c)))))

/-- The test of `/^(the\s+)?(concept|meaning|...)\s+of\b/i` (whose negation
is the source's `looksLikeTopic`). -/
def topicRegexTest (l : List Char) : Bool :=
  matchNounOf l ||
    ((['t', 'h', 'e'] : List Char).isPrefixOf l &&
      (let r := l.drop 3
       decide ((r.takeWhile jsWS).length ≥ 1) && matchNounOf (r.dropWhile jsWS)))

/-- The rewritten form `"What does the Quran say about {query}?"` built by
the source (note: the source lowercases the interpolated query). -/
def expansionOf (t : String) : String :=
  "What does the Quran say about " ++ strToLower t ++ "?"

/-- `expandShortQuery` (src/lib/retrieval.ts). -/
def expandShortQuery (query : String) : String :=
  let trimmed := jsTrim query
  let wc := wordCountJS trimmed
  let isQ := startsQuestionWord trimmed
  let mention := hasQuranMention trimmed
  if wc ≤ 3 ∧ isQ = false ∧ mention = false then expansionOf trimmed
  else if wc ≤ 6 ∧ isQ = false ∧ trimmed.data.contains '?' = false then
    (if topicRegexTest (lcList trimmed) = false ∧ mention = false then
      expansionOf trimmed
     else trimmed)
  else trimmed

/-- The characters of a bracketed citation token after its `'('`: a single
token `S:A)` when `rng` is `none`, a range token `S:A-B)` when `rng` holds
the dash and the end-ayah digits. -/
def citTokenTail (dS dA : List Char) (rng : Option (Char × List Char))
    (suf : List Char) : List Char :=
  dS ++ ':' ::
    (dA ++
      (match rng with
       | none => ')' :: suf
       | some (d, dB) => d :: (dB ++ ')' :: suf)))

/-! ## Helper lemmas for the citation scanner -/

/-- `takeWhile`/`dropWhile` on a satisfied run followed by a failing head. -/
theorem takeWhile_run_append {p : Char → Bool} {x : List Char} {y : Char}
    (r : List Char) (hxs : ∀ c ∈ x, p c = true) (hy : p y = false) :
    (x ++ y :: r).takeWhile p = x ∧ (x ++ y :: r).dropWhile p = y :: r := by
  induction x with
  | nil => simp [List.takeWhile, List.dropWhile, hy]
  | cons x xs ih =>
    have hx : p x = true := hxs x (by simp)
    have := ih (fun c hc => hxs c (by simp [hc]))
    simp [List.takeWhile, List.dropWhile, hx, this.1, this.2]

theorem isDig_colon : isDig ':' = false := by decide

theorem isDig_rparen : isDig ')' = false := by decide

theorem ne_lparen_of_isDig {c : Char} (h : isDig c = true) : c ≠ '(' := by
  intro he; subst he; simp [isDig, Char.isDigit] at h

/-- `matchTail` on a well-formed range token `S:A-B)` followed by anything. -/
theorem matchTail_range_token (dS dA dB : List Char) (dash : Char)
    (suf : List Char)
    (hS : ∀ c ∈ dS, isDig c = true) (hSne : dS ≠ []) (hSlen : dS.length ≤ 3)
    (hA : ∀ c ∈ dA, isDig c = true) (hAne : dA ≠ []) (hAlen : dA.length ≤ 3)
    (hB : ∀ c ∈ dB, isDig c = true) (hBne : dB ≠ []) (hBlen : dB.length ≤ 3)
    (hdash : dash = '-' ∨ dash = '–') :
    matchTail (dS ++ ':' :: (dA ++ dash :: (dB ++ ')' :: suf)))
      = some (digitsToNat dS, digitsToNat dA, some (digitsToNat dB), suf) := by
  have hdashd : isDig dash = false := by
    rcases hdash with h | h <;> subst h <;> decide
  have h1 := takeWhile_run_append (p := isDig)
    (x := dS) (y := ':') (dA ++ dash :: (dB ++ ')' :: suf)) hS isDig_colon
  have h2 := takeWhile_run_append (p := isDig)
    (x := dA) (y := dash) (dB ++ ')' :: suf) hA hdashd
  have h3 := takeWhile_run_append (p := isDig)
    (x := dB) (y := ')') suf hB isDig_rparen
  have hS3 : ¬(dS = [] ∨ 3 < dS.length) := by
    simp only [not_or]
    exact ⟨hSne, by omega⟩
  simp only [matchTail, h1.1, h1.2, if_neg hS3]
  simp only [if_pos rfl, h2.1, h2.2, if_neg hAne]
  rw [List.take_of_length_le hAlen, List.drop_eq_nil_of_le hAlen]
  simp only [List.nil_append, rangeStep, if_pos hdash, h3.1, h3.2,
    if_neg hBne]
  rw [List.take_of_length_le hBlen, List.drop_eq_nil_of_le hBlen]
  simp [closeStep]

/-- `matchTail` on a well-formed single token `S:A)` followed by anything. -/
theorem matchTail_single_token (dS dA : List Char) (suf : List Char)
    (hS : ∀ c ∈ dS, isDig c = true) (hSne : dS ≠ []) (hSlen : dS.length ≤ 3)
    (hA : ∀ c ∈ dA, isDig c = true) (hAne : dA ≠ []) (hAlen : dA.length ≤ 3) :
    matchTail (dS ++ ':' :: (dA ++ ')' :: suf))
      = some (digitsToNat dS, digitsToNat dA, none, suf) := by
  have h1 := takeWhile_run_append (p := isDig)
    (x := dS) (y := ':') (dA ++ ')' :: suf) hS isDig_colon
  have h2 := takeWhile_run_append (p := isDig)
    (x := dA) (y := ')') suf hA isDig_rparen
  have hS3 : ¬(dS = [] ∨ 3 < dS.length) := by
    simp only [not_or]
    exact ⟨hSne, by omega⟩
  simp only [matchTail, h1.1, h1.2, if_neg hS3]
  simp only [if_pos rfl, h2.1, h2.2, if_neg hAne]
  rw [List.take_of_length_le hAlen, List.drop_eq_nil_of_le hAlen]
  simp only [List.nil_append, rangeStep, if_neg (by decide : ¬(')' = '-' ∨ ')' = '–'))]
  simp [closeStep]

/-- Whatever `rangeStep` consumes is dashes and digits — never `'('`. -/
theorem rangeStep_consumed {l4 : List Char} {eo : Option Nat} {l5 : List Char}
    (h : rangeStep l4 = (eo, l5)) :
    ∃ mid, l4 = mid ++ l5 ∧ ∀ c ∈ mid, c ≠ '(' := by
  cases l4 with
  | nil =>
    simp only [rangeStep, Prod.mk.injEq] at h
    exact ⟨[], by simp [← h.2], by simp⟩
  | cons d l4' =>
    simp only [rangeStep] at h
    by_cases hd : d = '-' ∨ d = '–'
    · rw [if_pos hd] at h
      by_cases hes : l4'.takeWhile isDig = []
      · rw [if_pos hes] at h
        simp only [Prod.mk.injEq] at h
        exact ⟨[], by simp [← h.2], by simp⟩
      · rw [if_neg hes] at h
        simp only [Prod.mk.injEq] at h
        refine ⟨d :: (l4'.takeWhile isDig).take 3, ?_, ?_⟩
        · rw [← h.2]
          have h5 : (l4'.takeWhile isDig).take 3 ++ ((l4'.takeWhile isDig).drop 3
              ++ l4'.dropWhile isDig) = l4' := by
            rw [← List.append_assoc, List.take_append_drop,
              List.takeWhile_append_dropWhile]
          simp [h5]
        · intro c hc
          rcases List.mem_cons.1 hc with hc | hc
          · subst hc
            rcases hd with hd | hd <;> subst hd <;> decide
          · exact ne_lparen_of_isDig
              (List.mem_takeWhile_imp (List.take_subset 3 _ hc))
    · rw [if_neg hd] at h
      simp only [Prod.mk.injEq] at h
      exact ⟨[], by simp [← h.2], by simp⟩

/-- Whatever `closeStep` consumes is a closing bracket — never `'('`. -/
theorem closeStep_consumed {l5 rest : List Char} (h : closeStep l5 = rest) :
    ∃ mid, l5 = mid ++ rest ∧ ∀ c ∈ mid, c ≠ '(' := by
  cases l5 with
  | nil =>
    simp only [closeStep] at h
    exact ⟨[], by simp [← h], by simp⟩
  | cons c r =>
    simp only [closeStep] at h
    by_cases hc : c = ']' ∨ c = ')'
    · rw [if_pos hc] at h
      refine ⟨[c], by simp [← h], ?_⟩
      intro x hx
      rcases List.mem_singleton.1 hx with rfl
      rcases hc with hc | hc <;> subst hc <;> decide
    · rw [if_neg hc] at h
      exact ⟨[], by simp [← h], by simp⟩

/-- A successful `matchTail` consumes a nonempty chunk containing no `'('`. -/
theorem matchTail_consumed {l1 : List Char} {s a : Nat} {e : Option Nat}
    {rest : List Char} (h : matchTail l1 = some (s, a, e, rest)) :
    ∃ mid, l1 = mid ++ rest ∧ mid ≠ [] ∧ ∀ c ∈ mid, c ≠ '(' := by
  by_cases hds : l1.takeWhile isDig = [] ∨ 3 < (l1.takeWhile isDig).length
  · simp only [matchTail] at h
    rw [if_pos hds] at h
    exact Option.noConfusion h
  · cases hdw : l1.dropWhile isDig with
    | nil =>
      simp only [matchTail, hdw] at h
      rw [if_neg hds] at h
      exact Option.noConfusion h
    | cons c2 l3 =>
      by_cases hc2 : c2 = ':'
      · by_cases has : l3.takeWhile isDig = []
        · simp only [matchTail, hdw, if_neg hds, if_pos hc2, if_pos has] at h
          exact Option.noConfusion h
        · simp only [matchTail, hdw, if_neg hds, if_pos hc2, if_neg has,
            Option.some.injEq, Prod.mk.injEq] at h
          obtain ⟨hs, ha, he, hrest⟩ := h
          obtain ⟨mid4, hm4, hc4⟩ := rangeStep_consumed
            (Prod.mk.eta
              (p := rangeStep ((l3.takeWhile isDig).drop 3
                ++ l3.dropWhile isDig))).symm
          obtain ⟨mid5, hm5, hc5⟩ := closeStep_consumed hrest
          refine ⟨l1.takeWhile isDig ++ c2 :: ((l3.takeWhile isDig).take 3
            ++ mid4 ++ mid5), ?_, by simp, ?_⟩
          · have hl1 : l1 = l1.takeWhile isDig ++ c2 :: l3 := by
              conv_lhs =>
                rw [← List.takeWhile_append_dropWhile (p := isDig) (l := l1)]
              rw [hdw]
            have hl3 : l3 = (l3.takeWhile isDig).take 3
                ++ (mid4 ++ (mid5 ++ rest)) := by
              conv_lhs =>
                rw [← List.takeWhile_append_dropWhile (p := isDig) (l := l3)]
              conv_lhs =>
                rw [← List.take_append_drop 3 (l3.takeWhile isDig)]
              rw [List.append_assoc]
              congr 1
              rw [← hm5, ← hm4]
            conv_lhs => rw [hl1, hl3]
            simp [List.append_assoc]
          · intro c hc
            simp only [List.mem_append, List.mem_cons] at hc
            rcases hc with hc | hc | hc
            · exact ne_lparen_of_isDig (List.mem_takeWhile_imp hc)
            · subst hc; rw [hc2]; decide
            · rcases hc with (hc | hc) | hc
              · exact ne_lparen_of_isDig
                  (List.mem_takeWhile_imp (List.take_subset 3 _ hc))
              · exact hc4 c hc
              · exact hc5 c hc
      · simp only [matchTail, hdw, if_neg hds, if_neg hc2] at h
        exact Option.noConfusion h

/-- A successful `matchAt` consumes a nonempty chunk whose characters after
the first are never `'('` (an opening parenthesis can only be consumed as
the very first character of a match). -/
theorem matchAt_consumed {l : List Char} {s a : Nat} {e : Option Nat}
    {rest : List Char} (h : matchAt l = some (s, a, e, rest)) :
    ∃ mid, l = mid ++ rest ∧ mid ≠ [] ∧ ∀ c ∈ mid.tail, c ≠ '(' := by
  cases l with
  | nil =>
    simp only [matchAt] at h
    exact Option.noConfusion h
  | cons c cs =>
    by_cases hc : c = '[' ∨ c = '('
    · simp only [matchAt, if_pos hc] at h
      obtain ⟨mid1, hm, hne, hch⟩ := matchTail_consumed h
      exact ⟨c :: mid1, by simp [hm], by simp, by simpa using hch⟩
    · simp only [matchAt, if_neg hc] at h
      obtain ⟨mid1, hm, hne, hch⟩ := matchTail_consumed h
      exact ⟨mid1, hm, hne, fun x hx => hch x (List.mem_of_mem_tail hx)⟩

/-- If a chunk whose characters after the first are never `'('` is carved
off a list of the form `pre ++ '(' :: t` (with `pre` nonempty), the chunk
lies entirely inside `pre`. -/
theorem consumed_before_paren :
    ∀ (mid pre t rest : List Char),
      mid ++ rest = pre ++ '(' :: t → (∀ c ∈ mid.tail, c ≠ '(') →
      mid ≠ [] → pre ≠ [] →
      ∃ pre2, pre = mid ++ pre2 ∧ rest = pre2 ++ '(' :: t := by
  intro mid
  induction mid with
  | nil => intro pre t rest _ _ hne _; exact absurd rfl hne
  | cons m ms ih =>
    intro pre t rest heq htail _ hpre
    cases pre with
    | nil => exact absurd rfl hpre
    | cons p ps =>
      simp only [List.cons_append, List.cons.injEq] at heq
      obtain ⟨hm, heq2⟩ := heq
      cases ms with
      | nil =>
        exact ⟨ps, by simp [hm], by simpa using heq2⟩
      | cons m2 ms2 =>
        cases ps with
        | nil =>
          exfalso
          have : m2 = '(' := by
            simpa using congrArg (fun l => l.head?) heq2
          exact htail m2 (by simp) this
        | cons q qs =>
          obtain ⟨pre2, hp, hr⟩ := ih (q :: qs) t rest heq2
            (fun c hcm => htail c (List.mem_of_mem_tail hcm))
            (by simp) (by simp)
          exact ⟨pre2, by simp [hm, hp], hr⟩

/-- The scan loop finds every well-formed parenthesised token: if the text
is `pre ++ '(' :: body` and `matchTail` accepts `body` leaving exactly the
token's suffix, then every citation the token expands to is in the scan's
output (given enough fuel). -/
theorem scanCitations_mem_of_token :
    ∀ (fuel : Nat) (pre body suf : List Char) (s a : Nat) (e : Option Nat)
      (cit : Citation),
      matchTail body = some (s, a, e, suf) →
      cit ∈ expandCitation s a e →
      pre.length + (1 + body.length) ≤ fuel →
      cit ∈ scanCitations fuel (pre ++ '(' :: body) := by
  intro fuel
  induction fuel with
  | zero =>
    intro pre body suf s a e cit _ _ hlen
    omega
  | succ fuel ih =>
    intro pre body suf s a e cit hm hcit hlen
    cases pre with
    | nil =>
      simp only [List.nil_append]
      have hma : matchAt ('(' :: body) = some (s, a, e, suf) := by
        simp [matchAt, hm]
      simp only [scanCitations, hma]
      exact List.mem_append_left _ hcit
    | cons p ps =>
      simp only [List.cons_append]
      cases hma : matchAt (p :: (ps ++ '(' :: body)) with
      | none =>
        simp only [scanCitations, hma]
        have : ps.length + (1 + body.length) ≤ fuel := by
          simp only [List.length_cons] at hlen
          omega
        exact ih ps body suf s a e cit hm hcit this
      | some out =>
        obtain ⟨s', a', e', rest'⟩ := out
        simp only [scanCitations, hma]
        obtain ⟨mid, hmid, hmidne, hmidch⟩ := matchAt_consumed hma
        obtain ⟨pre2, hp2, hr2⟩ := consumed_before_paren mid (p :: ps) body
          rest' hmid.symm hmidch hmidne (by simp)
        refine List.mem_append_right _ ?_
        rw [hr2]
        have hlen2 : pre2.length + (1 + body.length) ≤ fuel := by
          have := congrArg List.length hp2
          simp only [List.length_cons, List.length_append] at this hlen ⊢
          have hmidlen : 1 ≤ mid.length := by
            cases mid with
            | nil => exact absurd rfl hmidne
            | cons _ _ => simp
          omega
        exact ih pre2 body suf s a e cit hm hcit hlen2

/-- Membership in the expansion of a validated range citation. -/
theorem mem_expandCitation_range {s a b k : Nat} (h1 : 1 ≤ s) (h2 : s ≤ 114)
    (h3 : 1 ≤ a) (h4 : a ≤ 286) (hk1 : a ≤ k) (hk2 : k ≤ min b 286) :
    (⟨s, k⟩ : Citation) ∈ expandCitation s a (some b) := by
  simp only [expandCitation, Option.getD_some]
  rw [if_pos ⟨h1, h2, h3, h4⟩]
  refine List.mem_map.2 ⟨k, ?_, rfl⟩
  rw [List.mem_range'_1]
  omega

/-- A validated single citation expands to itself. -/
theorem mem_expandCitation_single {s a : Nat} (h1 : 1 ≤ s) (h2 : s ≤ 114)
    (h3 : 1 ≤ a) (h4 : a ≤ 286) :
    (⟨s, a⟩ : Citation) ∈ expandCitation s a none := by
  simp only [expandCitation, Option.getD_none]
  rw [if_pos ⟨h1, h2, h3, h4⟩]
  refine List.mem_map.2 ⟨a, ?_, rfl⟩
  rw [List.mem_range'_1]
  omega

/-- C1: for every input text containing a range citation token `(S:A-B)`
(hyphen or en-dash, each numeral 1-3 digits) with `1 ≤ S ≤ 114` and
`1 ≤ A ≤ 286`, `parseCitations` returns a Citation `⟨S, k⟩` for every
integer `k` in `[A, min B 286]` — a range token is expanded, never reduced
to its start ayah alone. -/
theorem C1_range_expansion
    (pre suf dS dA dB : List Char) (dash : Char) (S A B k : Nat)
    (hS : ∀ c ∈ dS, isDig c = true) (hSne : dS ≠ []) (hSlen : dS.length ≤ 3)
    (hA : ∀ c ∈ dA, isDig c = true) (hAne : dA ≠ []) (hAlen : dA.length ≤ 3)
    (hB : ∀ c ∈ dB, isDig c = true) (hBne : dB ≠ []) (hBlen : dB.length ≤ 3)
    (hdash : dash = '-' ∨ dash = '–')
    (hSv : digitsToNat dS = S) (hAv : digitsToNat dA = A)
    (hBv : digitsToNat dB = B)
    (hS1 : 1 ≤ S) (hS2 : S ≤ 114) (hA1 : 1 ≤ A) (hA2 : A ≤ 286)
    (hk1 : A ≤ k) (hk2 : k ≤ min B 286) :
    (⟨S, k⟩ : Citation) ∈ parseCitations
      (String.mk (pre ++ '(' ::
        (dS ++ ':' :: (dA ++ dash :: (dB ++ ')' :: suf))))) := by
  have hm := matchTail_range_token dS dA dB dash suf hS hSne hSlen hA hAne
    hAlen hB hBne hBlen hdash
  rw [hSv, hAv, hBv] at hm
  have hcit : (⟨S, k⟩ : Citation) ∈ expandCitation S A (some B) :=
    mem_expandCitation_range hS1 hS2 hA1 hA2 hk1 hk2
  exact scanCitations_mem_of_token _ pre _ suf S A (some B) ⟨S, k⟩ hm hcit
    (by simp [List.length_append]; omega)

/-- Witness for C1 at the concrete text `"(2:3-5)"` and the mid-range
ayah `k = 4`. -/
theorem C1_range_expansion_witness :
    (⟨2, 4⟩ : Citation) ∈ parseCitations "(2:3-5)" ∧
      1 ≤ 2 ∧ 2 ≤ 114 ∧ 1 ≤ 3 ∧ 3 ≤ 286 ∧ 3 ≤ 4 ∧ 4 ≤ min 5 286 := by
  constructor
  · exact C1_range_expansion [] [] ['2'] ['3'] ['5'] '-' 2 3 5 4
      (by decide) (by decide) (by decide) (by decide) (by decide) (by decide)
      (by decide) (by decide) (by decide) (Or.inl rfl) rfl rfl rfl
      (by decide) (by decide) (by decide) (by decide) (by decide) (by decide)
  · decide

/-- `matchBrTail` accepts a well-formed single token `S:A)`. -/
theorem matchBrTail_single_token (dS dA : List Char) (suf : List Char)
    (hS : ∀ c ∈ dS, isDig c = true) (hSne : dS ≠ []) (hSlen : dS.length ≤ 3)
    (hA : ∀ c ∈ dA, isDig c = true) (hAne : dA ≠ []) (hAlen : dA.length ≤ 3) :
    matchBrTail (dS ++ ':' :: (dA ++ ')' :: suf)) = true := by
  have h1 := takeWhile_run_append (p := isDig)
    (x := dS) (y := ':') (dA ++ ')' :: suf) hS isDig_colon
  have h2 := takeWhile_run_append (p := isDig)
    (x := dA) (y := ')') suf hA isDig_rparen
  have hS3 : ¬(dS = [] ∨ 3 < dS.length) := by
    simp only [not_or]
    exact ⟨hSne, by omega⟩
  have hA3 : ¬(dA = [] ∨ 3 < dA.length) := by
    simp only [not_or]
    exact ⟨hAne, by omega⟩
  simp only [matchBrTail, h1.1, h1.2, if_neg hS3]
  simp only [if_pos rfl, h2.1, h2.2, if_neg hA3]
  simp

/-- `matchBrTail` accepts a well-formed range token `S:A-B)` (hyphen or
en-dash). -/
theorem matchBrTail_range_token (dS dA dB : List Char) (dash : Char)
    (suf : List Char)
    (hS : ∀ c ∈ dS, isDig c = true) (hSne : dS ≠ []) (hSlen : dS.length ≤ 3)
    (hA : ∀ c ∈ dA, isDig c = true) (hAne : dA ≠ []) (hAlen : dA.length ≤ 3)
    (hB : ∀ c ∈ dB, isDig c = true) (hBne : dB ≠ []) (hBlen : dB.length ≤ 3)
    (hdash : dash = '-' ∨ dash = '–') :
    matchBrTail (dS ++ ':' :: (dA ++ dash :: (dB ++ ')' :: suf))) = true := by
  have hdashd : isDig dash = false := by
    rcases hdash with h | h <;> subst h <;> decide
  have hdnc : ¬(dash = ']' ∨ dash = ')') := by
    rcases hdash with h | h <;> subst h <;> decide
  have h1 := takeWhile_run_append (p := isDig)
    (x := dS) (y := ':') (dA ++ dash :: (dB ++ ')' :: suf)) hS isDig_colon
  have h2 := takeWhile_run_append (p := isDig)
    (x := dA) (y := dash) (dB ++ ')' :: suf) hA hdashd
  have h3 := takeWhile_run_append (p := isDig)
    (x := dB) (y := ')') suf hB isDig_rparen
  have hS3 : ¬(dS = [] ∨ 3 < dS.length) := by
    simp only [not_or]
    exact ⟨hSne, by omega⟩
  have hA3 : ¬(dA = [] ∨ 3 < dA.length) := by
    simp only [not_or]
    exact ⟨hAne, by omega⟩
  have hB3 : ¬(dB = [] ∨ 3 < dB.length) := by
    simp only [not_or]
    exact ⟨hBne, by omega⟩
  simp only [matchBrTail, h1.1, h1.2, if_neg hS3]
  simp only [if_pos rfl, h2.1, h2.2, if_neg hA3]
  simp only [if_neg hdnc, if_pos hdash, h3.1, h3.2, if_neg hB3]
  simp

/-- `RegExp.test` succeeds when the pattern matches at some position. -/
theorem hasCitScan_append_of_matchBrAt (pre rest0 : List Char)
    (h : matchBrAt rest0 = true) : hasCitScan (pre ++ rest0) = true := by
  induction pre with
  | nil =>
    cases rest0 with
    | nil => simp [matchBrAt] at h
    | cons c cs => simp [hasCitScan, h]
  | cons p ps ih => simp [hasCitScan, ih]

/-- C7 (counterexample): `paragraphHasCitation` is not equivalent to
`parseCitations` being non-empty — a bare token `2:153` is parsed but not
detected, while a bracketed out-of-range token `(115:1)` is detected but
parses to nothing. -/
theorem C7_counterexample :
    paragraphHasCitation "2:153" = false ∧
      parseCitations "2:153" = [⟨2, 153⟩] ∧
      paragraphHasCitation "(115:1)" = true ∧
      parseCitations "(115:1)" = [] := by
  exact ⟨by decide, by decide, by decide, by decide⟩

/-- C7 (amended): on bracketed, value-valid citation tokens the two agree:
any paragraph containing a single token `(S:A)` with `1 ≤ S ≤ 114` and
`1 ≤ A ≤ 286`, or a range token `(S:A-B)` (hyphen or en-dash) with
additionally `A ≤ B`, makes `paragraphHasCitation` true and
`parseCitations` non-empty. -/
theorem C7_bracketed_agreement
    (pre suf dS dA : List Char) (rng : Option (Char × List Char)) (S A : Nat)
    (hS : ∀ c ∈ dS, isDig c = true) (hSne : dS ≠ []) (hSlen : dS.length ≤ 3)
    (hA : ∀ c ∈ dA, isDig c = true) (hAne : dA ≠ []) (hAlen : dA.length ≤ 3)
    (hrng : ∀ d dB, rng = some (d, dB) →
      (d = '-' ∨ d = '–') ∧ (∀ c ∈ dB, isDig c = true) ∧ dB ≠ [] ∧
        dB.length ≤ 3 ∧ A ≤ digitsToNat dB)
    (hSv : digitsToNat dS = S) (hAv : digitsToNat dA = A)
    (hS1 : 1 ≤ S) (hS2 : S ≤ 114) (hA1 : 1 ≤ A) (hA2 : A ≤ 286) :
    paragraphHasCitation
        (String.mk (pre ++ '(' :: citTokenTail dS dA rng suf)) = true ∧
      parseCitations
        (String.mk (pre ++ '(' :: citTokenTail dS dA rng suf)) ≠ [] := by
  cases rng with
  | none =>
    simp only [citTokenTail]
    constructor
    · have hbr : matchBrAt ('(' :: (dS ++ ':' :: (dA ++ ')' :: suf))) = true := by
        simp only [matchBrAt, if_pos (Or.inr rfl)]
        exact matchBrTail_single_token dS dA suf hS hSne hSlen hA hAne hAlen
      exact hasCitScan_append_of_matchBrAt pre _ hbr
    · have hm := matchTail_single_token dS dA suf hS hSne hSlen hA hAne hAlen
      rw [hSv, hAv] at hm
      have hcit : (⟨S, A⟩ : Citation) ∈ expandCitation S A none :=
        mem_expandCitation_single hS1 hS2 hA1 hA2
      exact List.ne_nil_of_mem
        (scanCitations_mem_of_token _ pre _ suf S A none ⟨S, A⟩ hm hcit
          (by simp [List.length_append]; omega))
  | some p =>
    obtain ⟨dash, dB⟩ := p
    obtain ⟨hdash, hB, hBne, hBlen, hAB⟩ := hrng dash dB rfl
    simp only [citTokenTail]
    constructor
    · have hbr : matchBrAt
          ('(' :: (dS ++ ':' :: (dA ++ dash :: (dB ++ ')' :: suf)))) = true := by
        simp only [matchBrAt, if_pos (Or.inr rfl)]
        exact matchBrTail_range_token dS dA dB dash suf hS hSne hSlen
          hA hAne hAlen hB hBne hBlen hdash
      exact hasCitScan_append_of_matchBrAt pre _ hbr
    · have hm := matchTail_range_token dS dA dB dash suf hS hSne hSlen
        hA hAne hAlen hB hBne hBlen hdash
      rw [hSv, hAv] at hm
      have hcit : (⟨S, A⟩ : Citation) ∈
          expandCitation S A (some (digitsToNat dB)) :=
        mem_expandCitation_range hS1 hS2 hA1 hA2 (le_refl A) (le_min hAB hA2)
      exact List.ne_nil_of_mem
        (scanCitations_mem_of_token _ pre _ suf S A (some (digitsToNat dB))
          ⟨S, A⟩ hm hcit (by simp [List.length_append]; omega))

/-- Witness for the amended C7, exercising the range case at the concrete
paragraph `"(1:2-4)"`. -/
theorem C7_bracketed_agreement_witness :
    paragraphHasCitation "(1:2-4)" = true ∧ parseCitations "(1:2-4)" ≠ [] := by
  exact C7_bracketed_agreement [] [] ['1'] ['2'] (some ('-', ['4'])) 1 2
    (by decide) (by decide) (by decide) (by decide) (by decide) (by decide)
    (fun d dB h => by
      simp only [Option.some.injEq, Prod.mk.injEq] at h
      obtain ⟨h1, h2⟩ := h
      subst h1
      subst h2
      exact ⟨Or.inl rfl, by decide, by decide, by decide, by decide⟩)
    rfl rfl (by decide) (by decide) (by decide) (by decide)

/-- C2: for every question, history and oracle outputs,
`generateVerifiedAnswer` on an empty context returns the fixed response
with an empty citations list and a non-null uncertainty, and performs no
completion call — neither the generation pass nor the verification pass. -/
theorem C2_empty_context_short_circuit (genOut verifyOut question : String)
    (history : List ConversationMessage) :
    (generateVerifiedAnswer genOut verifyOut question [] history).response.citations
        = [] ∧
      (generateVerifiedAnswer genOut verifyOut question [] history).response.uncertainty
        = some (.str "No relevant verses found in the database.") ∧
      (generateVerifiedAnswer genOut verifyOut question [] history).genCalls = 0 ∧
      (generateVerifiedAnswer genOut verifyOut question [] history).verifyCalls
        = 0 :=
  ⟨rfl, rfl, rfl, rfl⟩

/-- C3: whenever the (fence-stripped) LLM output is not valid JSON,
`parseJsonResponse` returns the raw-text fallback: `answer_markdown` is the
original input, citations are re-derived by `parseCitations` from that
input, and the uncertainty is the fixed parsing-issue message — no
exception escapes. -/
theorem C3_malformed_json_fallback (content : String)
    (context : List PairedVerse)
    (h : jsonParse (stripFences content) = none) :
    parseJsonResponse content context =
      { answer_markdown := content
        citations := (parseCitations content).map natCit
        uncertainty := some (.str parseFailMsg) } := by
  simp only [parseJsonResponse, h]

/-- Witness for C3: plain prose containing `(18:10)` is not JSON and falls
back to the raw text with citations `[{18, 10}]`. -/
theorem C3_malformed_json_fallback_witness :
    jsonParse (stripFences "The cave story (18:10) is recounted.") = none ∧
      parseJsonResponse "The cave story (18:10) is recounted." [] =
        { answer_markdown := "The cave story (18:10) is recounted."
          citations := [⟨some 18, some 10⟩]
          uncertainty := some (.str parseFailMsg) } ∧
      parseCitations "The cave story (18:10) is recounted." = [⟨18, 10⟩] := by
  refine ⟨rfl, ?_, by decide⟩
  rw [C3_malformed_json_fallback "The cave story (18:10) is recounted." [] rfl]
  rfl

/-- Closed form of the streaming loop body: one `text` event per yielded
chunk, then one terminal event carrying the full concatenation. -/
theorem streamBody_spec :
    ∀ (chunks : List String) (acc : String) (err : Option String),
      streamBody chunks acc err =
        chunks.map StreamEvent.text ++
          [match err with
           | none =>
             StreamEvent.done
               (parseCitations (chunks.foldl (fun x y => x ++ y) acc))
               (chunks.foldl (fun x y => x ++ y) acc)
           | some m => StreamEvent.error m] := by
  intro chunks
  induction chunks with
  | nil => intro acc err; cases err <;> simp [streamBody]
  | cons c cs ih => intro acc err; cases err <;> simp [streamBody, ih]

/-- C4: a run of `createStreamingResponse` emits exactly one `context`
event first (carrying the full verse array), then one `text` event per
yielded chunk, then exactly one terminal event: `done` on success — whose
`fullContent` is the concatenation of all text payloads in emission order
and whose citations are `parseCitations` of that concatenation — or
`error` on completion failure. -/
theorem C4_streaming_event_order (ctx : List PairedVerse)
    (deltas : List String) (err : Option String) :
    createStreamingResponse ctx deltas err =
      StreamEvent.context ctx ::
        ((streamChatResponse deltas).map StreamEvent.text ++
          [match err with
           | none =>
             StreamEvent.done
               (parseCitations
                 ((streamChatResponse deltas).foldl (fun x y => x ++ y) ""))
               ((streamChatResponse deltas).foldl (fun x y => x ++ y) "")
           | some m => StreamEvent.error m]) := by
  unfold createStreamingResponse
  rw [streamBody_spec]

/-- C5: with non-empty context, the verification pass runs if and only if
the draft answer (the parse of the generation oracle's output) has zero
citations in total or at least one paragraph without a citation; and the
verification pass runs at most once regardless of the verified result. -/
theorem C5_verification_trigger (genOut verifyOut question : String)
    (context : List PairedVerse) (history : List ConversationMessage)
    (hne : context ≠ []) :
    (generateVerifiedAnswer genOut verifyOut question context history).verifyCalls
        ≤ 1 ∧
      ((generateVerifiedAnswer genOut verifyOut question context history).verifyCalls
          = 1 ↔
        ((parseJsonResponse genOut context).citations = [] ∨
          ∃ p ∈ splitIntoParagraphs
              (parseJsonResponse genOut context).answer_markdown,
            paragraphHasCitation p = false)) := by
  have hlen : ¬(context.length = 0) := by
    simpa [List.length_eq_zero] using hne
  simp only [generateVerifiedAnswer, generateAnswer, if_neg hlen]
  by_cases hcond :
      (splitIntoParagraphs
        (parseJsonResponse genOut context).answer_markdown).all
          paragraphHasCitation = false ∨
        (parseJsonResponse genOut context).citations.length = 0
  · rw [if_pos hcond]
    refine ⟨by simp, ?_⟩
    simp only [true_iff]
    rcases hcond with hcond | hcond
    · right
      simpa [List.all_eq_false] using hcond
    · left
      exact List.length_eq_zero.1 hcond
  · rw [if_neg hcond]
    refine ⟨by simp, ?_⟩
    simp only [Nat.zero_ne_one, false_iff]
    push_neg at hcond
    obtain ⟨hall, hlen0⟩ := hcond
    rintro (hnil | ⟨p, hp, hpf⟩)
    · exact hlen0 (by simp [hnil])
    · have hall' : (splitIntoParagraphs
          (parseJsonResponse genOut context).answer_markdown).all
            paragraphHasCitation = true := by simpa using hall
      have := List.all_eq_true.1 hall' p hp
      simp [hpf] at this

/-- Witness for C5: a non-JSON generation output yields a fallback draft
with an empty citations list, so the verification pass runs exactly once. -/
theorem C5_verification_trigger_witness :
    ([⟨"(2:153)", 2, 153, "", "", 1, none, none⟩] : List PairedVerse) ≠ [] ∧
      (generateVerifiedAnswer "not json" "x" "q"
        [⟨"(2:153)", 2, 153, "", "", 1, none, none⟩] []).verifyCalls ≤ 1 ∧
      ((generateVerifiedAnswer "not json" "x" "q"
          [⟨"(2:153)", 2, 153, "", "", 1, none, none⟩] []).verifyCalls = 1 ↔
        ((parseJsonResponse "not json"
            [⟨"(2:153)", 2, 153, "", "", 1, none, none⟩]).citations = [] ∨
          ∃ p ∈ splitIntoParagraphs (parseJsonResponse "not json"
              [⟨"(2:153)", 2, 153, "", "", 1, none, none⟩]).answer_markdown,
            paragraphHasCitation p = false)) :=
  ⟨by simp, C5_verification_trigger "not json" "x" "q" _ [] (by simp)⟩

/-- C9: `expandPassages` only ever requests verse references with
`ayah ≥ 1`: every reference in the fetch list built from the anchors has a
positive ayah, whatever the anchors are. -/
theorem C9_expansion_clamp (anchors : List PairedVerse) (r : VerseRef)
    (h : r ∈ passageRefsToFetch anchors) : 1 ≤ r.ayah := by
  unfold passageRefsToFetch at h
  rw [List.mem_flatMap] at h
  obtain ⟨a, _, hr⟩ := h
  rw [List.mem_filterMap] at hr
  obtain ⟨off, _, hoff⟩ := hr
  by_cases hpos : (a.ayah : Int) + off > 0
  · rw [if_pos hpos] at hoff
    obtain rfl := Option.some.inj hoff
    simp only []
    omega
  · rw [if_neg hpos] at hoff
    exact absurd hoff (by simp)

/-- Witness for C9: an anchor at ayah 1 requests `(2, 1)` and every
request it generates has ayah at least 1. -/
theorem C9_expansion_clamp_witness :
    (⟨2, 1⟩ : VerseRef) ∈
        passageRefsToFetch
          ([⟨"(2:1)", 2, 1, "", "", 1, none, none⟩] : List PairedVerse) ∧
      1 ≤ (⟨2, 1⟩ : VerseRef).ayah :=
  ⟨by decide,
    C9_expansion_clamp ([⟨"(2:1)", 2, 1, "", "", 1, none, none⟩] :
      List PairedVerse) ⟨2, 1⟩ (by decide)⟩

/-- C8 (counterexample): the query "the meaning of patience" has four
words, does not start with a WH-word or auxiliary and mentions no domain
term, yet `expandShortQuery` returns it unchanged instead of the claimed
rewritten question (the source excludes `(the)? <topic-noun> of ...`
shapes, and in other branches lowercases the interpolation). -/
theorem C8_counterexample :
    wordCountJS (jsTrim "the meaning of patience") ≤ 6 ∧
      startsQuestionWord (jsTrim "the meaning of patience") = false ∧
      hasQuranMention (jsTrim "the meaning of patience") = false ∧
      expandShortQuery "the meaning of patience" = "the meaning of patience" ∧
      expandShortQuery "the meaning of patience" ≠
        "What does the Quran say about the meaning of patience?" :=
  ⟨by decide, by decide, by decide, by decide, by decide⟩

/-- C8 (amended): the trimmed query is rewritten to
`"What does the Quran say about {lowercased query}?"` iff it has at most 3
words, does not start with a question word and mentions no domain term; or
it has at most 6 words, does not start with a question word, contains no
`?`, is not of the shape `(the)? <topic-noun> of ...`, and mentions no
domain term.  Otherwise the trimmed query is returned unchanged. -/
theorem C8_expansion_amended (query : String) :
    expandShortQuery query =
      if (wordCountJS (jsTrim query) ≤ 3 ∧
            startsQuestionWord (jsTrim query) = false ∧
            hasQuranMention (jsTrim query) = false) ∨
          (wordCountJS (jsTrim query) ≤ 6 ∧
            startsQuestionWord (jsTrim query) = false ∧
            (jsTrim query).data.contains '?' = false ∧
            topicRegexTest (lcList (jsTrim query)) = false ∧
            hasQuranMention (jsTrim query) = false) then
        expansionOf (jsTrim query)
      else jsTrim query := by
  simp only [expandShortQuery]
  by_cases h1 : wordCountJS (jsTrim query) ≤ 3 ∧
      startsQuestionWord (jsTrim query) = false ∧
      hasQuranMention (jsTrim query) = false
  · rw [if_pos h1, if_pos (Or.inl h1)]
  · rw [if_neg h1]
    by_cases h2 : wordCountJS (jsTrim query) ≤ 6 ∧
        startsQuestionWord (jsTrim query) = false ∧
        (jsTrim query).data.contains '?' = false
    · rw [if_pos h2]
      by_cases h3 : topicRegexTest (lcList (jsTrim query)) = false ∧
          hasQuranMention (jsTrim query) = false
      · rw [if_pos h3, if_pos (Or.inr ⟨h2.1, h2.2.1, h2.2.2, h3.1, h3.2⟩)]
      · rw [if_neg h3, if_neg ?_]
        rintro (hc | hc)
        · exact h1 hc
        · exact h3 ⟨hc.2.2.2.1, hc.2.2.2.2⟩
    · rw [if_neg h2, if_neg ?_]
      rintro (hc | hc)
      · exact h1 hc
      · exact h2 ⟨hc.1, hc.2.1, hc.2.2.1⟩

/-- Insertion keeps the membership set. -/
theorem mem_insertSorted {le : α → α → Bool} {x a : α} :
    ∀ {l : List α}, a ∈ insertSorted le x l ↔ a = x ∨ a ∈ l := by
  intro l
  induction l with
  | nil => simp [insertSorted]
  | cons y ys ih =>
    simp only [insertSorted]
    by_cases h : le x y
    · rw [if_pos h]; simp
    · rw [if_neg h]
      simp only [List.mem_cons, ih]
      tauto

/-- Sorting keeps the membership set. -/
theorem mem_sortLe {le : α → α → Bool} {a : α} :
    ∀ {l : List α}, a ∈ sortLe le l ↔ a ∈ l := by
  intro l
  induction l with
  | nil => simp [sortLe]
  | cons y ys ih =>
    show a ∈ insertSorted le y (sortLe le ys) ↔ _
    rw [mem_insertSorted]
    simp [ih]

/-- The dedup fold only ever grows its result list. -/
theorem dedupe_fold_mono :
    ∀ (l : List VerseRef) (acc : List VerseRef × List (Nat × Nat))
      (r : VerseRef), r ∈ acc.1 → r ∈ (l.foldl dedupeStep acc).1 := by
  intro l
  induction l with
  | nil => intro acc r hr; exact hr
  | cons x xs ih =>
    intro acc r hr
    simp only [List.foldl_cons]
    apply ih
    unfold dedupeStep
    by_cases hc : acc.2.contains (x.surah, x.ayah)
    · rw [if_pos hc]; exact hr
    · rw [if_neg hc]; exact List.mem_append_left _ hr

/-- Every input reference survives deduplication (the key is the whole
reference, so the first kept occurrence is the reference itself). -/
theorem dedupe_fold_mem :
    ∀ (l : List VerseRef) (acc : List VerseRef × List (Nat × Nat)),
      (∀ k ∈ acc.2, (⟨k.1, k.2⟩ : VerseRef) ∈ acc.1) →
      ∀ r ∈ l, r ∈ (l.foldl dedupeStep acc).1 := by
  intro l
  induction l with
  | nil => intro acc _ r hr; simp at hr
  | cons x xs ih =>
    intro acc hinv r hr
    simp only [List.foldl_cons]
    have hinv' : ∀ k ∈ (dedupeStep acc x).2,
        (⟨k.1, k.2⟩ : VerseRef) ∈ (dedupeStep acc x).1 := by
      unfold dedupeStep
      by_cases hc : acc.2.contains (x.surah, x.ayah)
      · rw [if_pos hc]; exact hinv
      · rw [if_neg hc]
        intro k hk
        rcases List.mem_append.1 hk with hk | hk
        · exact List.mem_append_left _ (hinv k hk)
        · rcases List.mem_singleton.1 hk with rfl
          exact List.mem_append_right _ (List.mem_singleton_self _)
    rcases List.mem_cons.1 hr with rfl | hr'
    · have : r ∈ (dedupeStep acc r).1 := by
        unfold dedupeStep
        by_cases hc : acc.2.contains (r.surah, r.ayah)
        · rw [if_pos hc]
          have hk : (r.surah, r.ayah) ∈ acc.2 := by simpa using hc
          exact hinv _ hk
        · rw [if_neg hc]
          exact List.mem_append_right _ (List.mem_singleton_self _)
      exact dedupe_fold_mono xs _ r this
    · exact ih _ hinv' r hr'

/-- Dedup preserves membership. -/
theorem mem_dedupeRefs {r : VerseRef} {refs : List VerseRef} (h : r ∈ refs) :
    r ∈ dedupeRefs refs :=
  dedupe_fold_mem refs ([], []) (by simp) r h

/-- The passage-row fold only ever grows its result list. -/
theorem insertPassageRow_fold_mono (store : VerseStore) :
    ∀ (l : List (VerseRef × String))
      (acc : List PairedVerse × List (Nat × Nat)) (v : PairedVerse),
      v ∈ acc.1 → v ∈ (l.foldl (insertPassageRow store) acc).1 := by
  intro l
  induction l with
  | nil => intro acc v hv; exact hv
  | cons rc rest ih =>
    intro acc v hv
    simp only [List.foldl_cons]
    apply ih
    unfold insertPassageRow
    by_cases hc : acc.2.contains (rc.1.surah, rc.1.ayah)
    · rw [if_pos hc]; exact hv
    · rw [if_neg hc]; exact List.mem_append_left _ hv

/-- Every row produced by the passage fold has similarity 1 and no
annotation metadata. -/
theorem insertPassageRow_fold_flat (store : VerseStore) :
    ∀ (l : List (VerseRef × String))
      (acc : List PairedVerse × List (Nat × Nat)),
      (∀ v ∈ acc.1,
        v.similarity = 1 ∧ v.context_summary = none ∧ v.theme = none) →
      ∀ v ∈ (l.foldl (insertPassageRow store) acc).1,
        v.similarity = 1 ∧ v.context_summary = none ∧ v.theme = none := by
  intro l
  induction l with
  | nil => intro acc hacc; exact hacc
  | cons rc rest ih =>
    intro acc hacc
    simp only [List.foldl_cons]
    apply ih
    unfold insertPassageRow
    by_cases hc : acc.2.contains (rc.1.surah, rc.1.ayah)
    · rw [if_pos hc]; exact hacc
    · rw [if_neg hc]
      intro v hv
      rcases List.mem_append.1 hv with hv | hv
      · exact hacc v hv
      · rcases List.mem_singleton.1 hv with rfl
        exact ⟨rfl, rfl, rfl⟩

/-- Every fetched row leaves a matching `(surah, ayah)` entry in the
passage fold's output. -/
theorem insertPassageRow_fold_mem (store : VerseStore) :
    ∀ (l : List (VerseRef × String))
      (acc : List PairedVerse × List (Nat × Nat)),
      (∀ k ∈ acc.2, ∃ v ∈ acc.1, v.surah = k.1 ∧ v.ayah = k.2) →
      ∀ (rf : VerseRef) (c : String), (rf, c) ∈ l →
      ∃ v ∈ (l.foldl (insertPassageRow store) acc).1,
        v.surah = rf.surah ∧ v.ayah = rf.ayah := by
  intro l
  induction l with
  | nil => intro acc _ rf c h; simp at h
  | cons rc rest ih =>
    intro acc hinv rf c hm
    simp only [List.foldl_cons]
    have hinv' : ∀ k ∈ (insertPassageRow store acc rc).2,
        ∃ v ∈ (insertPassageRow store acc rc).1,
          v.surah = k.1 ∧ v.ayah = k.2 := by
      unfold insertPassageRow
      by_cases hc : acc.2.contains (rc.1.surah, rc.1.ayah)
      · rw [if_pos hc]; exact hinv
      · rw [if_neg hc]
        intro k hk
        rcases List.mem_append.1 hk with hk | hk
        · obtain ⟨v, hv, hvk⟩ := hinv k hk
          exact ⟨v, List.mem_append_left _ hv, hvk⟩
        · rcases List.mem_singleton.1 hk with rfl
          exact ⟨_, List.mem_append_right _ (List.mem_singleton_self _),
            rfl, rfl⟩
    rcases List.mem_cons.1 hm with heq | hm'
    · have hrc1 : rc.1 = rf := by rw [← heq]
      have : ∃ v ∈ (insertPassageRow store acc rc).1,
          v.surah = rf.surah ∧ v.ayah = rf.ayah := by
        unfold insertPassageRow
        by_cases hc : acc.2.contains (rc.1.surah, rc.1.ayah)
        · rw [if_pos hc]
          have hk : (rc.1.surah, rc.1.ayah) ∈ acc.2 := by simpa using hc
          obtain ⟨v, hv, h1, h2⟩ := hinv _ hk
          exact ⟨v, hv, by rw [h1, hrc1], by rw [h2, hrc1]⟩
        · rw [if_neg hc]
          exact ⟨_, List.mem_append_right _ (List.mem_singleton_self _),
            by rw [hrc1], by rw [hrc1]⟩
      obtain ⟨v, hv, hvk⟩ := this
      exact ⟨v, insertPassageRow_fold_mono store rest _ v hv, hvk⟩
    · exact ih _ hinv' rf c hm'

/-- Each anchor's own reference is among the fetch requests (offset 0). -/
theorem passageRefsToFetch_self {anchors : List PairedVerse}
    {a : PairedVerse} (ha : a ∈ anchors) (hay : 1 ≤ a.ayah) :
    (⟨a.surah, a.ayah⟩ : VerseRef) ∈ passageRefsToFetch anchors := by
  unfold passageRefsToFetch
  rw [List.mem_flatMap]
  refine ⟨a, ha, ?_⟩
  rw [List.mem_filterMap]
  refine ⟨0, by decide, ?_⟩
  rw [if_pos (by omega)]
  have : ((a.ayah : Int) + 0).toNat = a.ayah := by omega
  rw [this]

/-- C6 (counterexample): an anchor returned by vector search with
similarity 4/5 and an annotation row (theme "Tawhid") does NOT retain
either in the list returned by `retrievePairedContext`: the returned row
for it has similarity 1 and no metadata, because `expandPassages` rebuilds
every row from the store with `similarity := 1`. -/
theorem C6_counterexample :
    retrievePairedContext
        ⟨fun s a => if s = 2 ∧ a = 255 then some "No deity but Him" else none,
         fun _ _ => none,
         fun s a =>
           if s = 2 ∧ a = 255 then
             some ⟨some "Ayat al-Kursi", some "Tawhid"⟩
           else none⟩
        [⟨2, 255, "No deity but Him", (4 : ℚ) / 5⟩] =
      [{ ref := "(2:255)", surah := 2, ayah := 255, arabic := "",
         english := "No deity but Him", similarity := 1,
         context_summary := none, theme := none }] ∧
      (4 : ℚ) / 5 ≠ (1 : ℚ) := by
  exact ⟨by decide, by norm_num⟩

/-- C6 (amended): every row returned by `retrievePairedContext` — anchors
and expanded-only rows alike — carries similarity 1.0 and no
theme/context_summary metadata; and every anchor present in the English
row store appears in the output by `(surah, ayah)`. -/
theorem C6_similarity_amended (store : VerseStore)
    (searchResults : List RetrievalResult) :
    (∀ v ∈ retrievePairedContext store searchResults,
      v.similarity = 1 ∧ v.context_summary = none ∧ v.theme = none) ∧
    (∀ r ∈ searchResults, 1 ≤ r.ayah → (store.en r.surah r.ayah).isSome →
      ∃ v ∈ retrievePairedContext store searchResults,
        v.surah = r.surah ∧ v.ayah = r.ayah) := by
  constructor
  · intro v hv
    unfold retrievePairedContext at hv
    by_cases h0 : searchResults.length = 0
    · rw [if_pos h0] at hv; simp at hv
    · rw [if_neg h0] at hv
      unfold expandPassages at hv
      exact insertPassageRow_fold_flat store _ ([], []) (by simp) v hv
  · intro r hr hay hsome
    have h0 : ¬(searchResults.length = 0) := by
      intro h
      rw [List.length_eq_zero] at h
      subst h
      simp at hr
    unfold retrievePairedContext
    rw [if_neg h0]
    unfold expandPassages
    have hanch : buildAnchor store r ∈ searchResults.map (buildAnchor store) :=
      List.mem_map_of_mem _ hr
    have href : (⟨r.surah, r.ayah⟩ : VerseRef) ∈
        passageRefsToFetch (searchResults.map (buildAnchor store)) :=
      passageRefsToFetch_self hanch hay
    have hdedup : (⟨r.surah, r.ayah⟩ : VerseRef) ∈
        dedupeRefs (passageRefsToFetch (searchResults.map (buildAnchor store))) :=
      mem_dedupeRefs href
    obtain ⟨cnt, hcnt⟩ := Option.isSome_iff_exists.1 hsome
    have hen : ((⟨r.surah, r.ayah⟩ : VerseRef), cnt) ∈
        (dedupeRefs (passageRefsToFetch
          (searchResults.map (buildAnchor store)))).filterMap
          (fun rf => (store.en rf.surah rf.ayah).map (fun c => (rf, c))) := by
      rw [List.mem_filterMap]
      exact ⟨⟨r.surah, r.ayah⟩, hdedup, by simp [hcnt]⟩
    have hsorted := (@mem_sortLe _ (fun x y => refLeB x.1 y.1) _ _).2 hen
    exact insertPassageRow_fold_mem store _ ([], []) (by simp)
      ⟨r.surah, r.ayah⟩ cnt hsorted

/-- Witness for the amended C6: the counterexample store again; the single
anchor `(2, 255)` appears in the output with similarity 1 and no
metadata. -/
theorem C6_similarity_amended_witness :
    ((⟨2, 255, "No deity but Him", (4 : ℚ) / 5⟩ : RetrievalResult) ∈
      ([⟨2, 255, "No deity but Him", (4 : ℚ) / 5⟩] : List RetrievalResult)) ∧
    (∃ v ∈ retrievePairedContext
        ⟨fun s a => if s = 2 ∧ a = 255 then some "No deity but Him" else none,
         fun _ _ => none,
         fun s a =>
           if s = 2 ∧ a = 255 then
             some ⟨some "Ayat al-Kursi", some "Tawhid"⟩
           else none⟩
        [⟨2, 255, "No deity but Him", (4 : ℚ) / 5⟩],
      v.surah = 2 ∧ v.ayah = 255) := by
  refine ⟨by simp, ?_⟩
  exact (C6_similarity_amended _ _).2 ⟨2, 255, "No deity but Him", (4 : ℚ) / 5⟩
    (by simp) (by decide) (by decide)

/-- Strict number equality against a real number forces the same value. -/
theorem jsStrictEqNum_eq_some {a : Option ℚ} {q : ℚ}
    (h : jsStrictEqNum a (some q) = true) : a = some q := by
  cases a with
  | none => simp [jsStrictEqNum] at h
  | some x => simpa [jsStrictEqNum] using h

/-- The citation-union fold never removes an already-present citation. -/
theorem insertTextCit_fold_superset :
    ∀ (l : List Citation) (acc : List JsCitation) (c : JsCitation),
      c ∈ acc → c ∈ l.foldl insertTextCit acc := by
  intro l
  induction l with
  | nil => intro acc c hc; exact hc
  | cons tc rest ih =>
    intro acc c hc
    simp only [List.foldl_cons]
    apply ih
    unfold insertTextCit
    by_cases h : acc.any (fun c =>
        jsStrictEqNum c.surah (some (tc.surah : ℚ)) &&
        jsStrictEqNum c.ayah (some (tc.ayah : ℚ)))
    · rw [if_pos h]; exact hc
    · rw [if_neg h]; exact List.mem_append_left _ hc

/-- Every text-extracted citation ends up in the union. -/
theorem insertTextCit_fold_mem_text :
    ∀ (l : List Citation) (acc : List JsCitation) (tc : Citation),
      tc ∈ l → natCit tc ∈ l.foldl insertTextCit acc := by
  intro l
  induction l with
  | nil => intro acc tc h; simp at h
  | cons tc0 rest ih =>
    intro acc tc hm
    simp only [List.foldl_cons]
    rcases List.mem_cons.1 hm with rfl | hm'
    · have : natCit tc ∈ insertTextCit acc tc := by
        unfold insertTextCit
        by_cases h : acc.any (fun c =>
            jsStrictEqNum c.surah (some (tc.surah : ℚ)) &&
            jsStrictEqNum c.ayah (some (tc.ayah : ℚ)))
        · rw [if_pos h]
          obtain ⟨c, hc, hceq⟩ := List.any_eq_true.1 h
          rw [Bool.and_eq_true] at hceq
          obtain ⟨h1, h2⟩ := hceq
          have e1 := jsStrictEqNum_eq_some h1
          have e2 := jsStrictEqNum_eq_some h2
          have : c = natCit tc := by
            cases c
            simp only [natCit]
            simp only at e1 e2
            rw [e1, e2]
          rw [← this]
          exact hc
        · rw [if_neg h]
          exact List.mem_append_right _ (List.mem_singleton_self _)
      exact insertTextCit_fold_superset rest _ _ this
    · exact ih _ tc hm'


/-- Validation reports `valid = false` exactly when some citation parsed
from the answer text has no matching context reference. -/
theorem validate_valid_false_iff (answer : String) (refs : List VerseRef) :
    (validateCitationsAgainstContext answer refs).valid = false ↔
      ∃ c ∈ parseCitations answer,
        (c.surah, c.ayah) ∉ refs.map (fun r => (r.surah, r.ayah)) := by
  simp [validateCitationsAgainstContext, List.isEmpty_iff,
    List.filter_eq_nil_iff]

/-- C10: when `parseJsonResponse` successfully parses the LLM's JSON (the
payload is not `null` and has no `null` citations entry), validation never
removes a citation — both the coerced structured citations and every
citation re-extracted from the answer text are in the result's list; a
truthy LLM-provided `uncertainty` is returned as-is, never overwritten by
the advisory; and when the LLM's own `uncertainty` is null/empty, the
fixed advisory string is set exactly when at least one citation parsed
from the answer text lies outside the supplied context. -/
theorem C10_validation_advisory (content : String)
    (context : List PairedVerse) (v : JsonVal)
    (hp : jsonParse (stripFences content) = some v)
    (hnull : isNullJ v = false)
    (hentries : (citEntries v).any isNullJ = false) :
    (∀ c ∈ (citEntries v).map (fun e =>
        (⟨jsToNumberO (jsGet e "surah"), jsToNumberO (jsGet e "ayah")⟩ :
          JsCitation)),
      c ∈ (parseJsonResponse content context).citations) ∧
    (∀ tc ∈ parseCitations (answerMd v),
      natCit tc ∈ (parseJsonResponse content context).citations) ∧
    ((uncField v).isSome = true →
      (parseJsonResponse content context).uncertainty = uncField v) ∧
    ((uncField v).isNone = true →
      (parseJsonResponse content context).uncertainty =
        (if ∃ c ∈ parseCitations (answerMd v),
            (c.surah, c.ayah) ∉ context.map (fun x => (x.surah, x.ayah))
         then some (.str advisoryMsg)
         else none)) := by
  have hR : parseJsonResponse content context =
      { answer_markdown := answerMd v
        citations := (parseCitations (answerMd v)).foldl insertTextCit
          ((citEntries v).map (fun e =>
            (⟨jsToNumberO (jsGet e "surah"), jsToNumberO (jsGet e "ayah")⟩ :
              JsCitation)))
        uncertainty :=
          if (validateCitationsAgainstContext (answerMd v)
              (context.map (fun c => (⟨c.surah, c.ayah⟩ : VerseRef)))).valid
                = false ∧ (uncField v).isNone then
            some (.str advisoryMsg)
          else uncField v } := by
    simp only [parseJsonResponse, hp, hnull, hentries, Bool.false_eq_true,
      if_false]
  have hmapmap : (context.map (fun c => (⟨c.surah, c.ayah⟩ : VerseRef))).map
      (fun r => (r.surah, r.ayah)) = context.map (fun x => (x.surah, x.ayah)) := by
    rw [List.map_map]
    rfl
  refine ⟨?_, ?_, ?_, ?_⟩
  · intro c hc
    rw [hR]
    exact insertTextCit_fold_superset _ _ c hc
  · intro tc htc
    rw [hR]
    exact insertTextCit_fold_mem_text _ _ tc htc
  · intro hsome
    rw [hR]
    have hfalse : (uncField v).isNone = false := by
      cases h2 : uncField v with
      | none => rw [h2] at hsome; simp at hsome
      | some u => simp
    simp only [hfalse]
    rw [if_neg (by simp)]
  · intro hnone
    rw [hR]
    simp only [hnone]
    by_cases hval : (validateCitationsAgainstContext (answerMd v)
        (context.map (fun c => (⟨c.surah, c.ayah⟩ : VerseRef)))).valid = false
    · rw [if_pos ⟨hval, trivial⟩]
      rw [if_pos ?_]
      have := (validate_valid_false_iff _ _).1 hval
      rw [hmapmap] at this
      exact this
    · rw [if_neg (by simp [hval])]
      rw [if_neg ?_]
      · exact Option.isNone_iff_eq_none.1 hnone
      · intro hex
        apply hval
        rw [validate_valid_false_iff, hmapmap]
        exact hex

/-- Witness for C10: a parsed payload with `uncertainty: null` whose text
cites `(3:4)` outside the context `[(2:153)]` gets exactly the advisory
uncertainty. -/
theorem C10_validation_advisory_witness :
    jsonParse (stripFences "\x7b\"answer_markdown\": \"See (2:153) and (3:4)\", \"citations\": [], \"uncertainty\": null\x7d") =
      some (JsonVal.obj
        [("answer_markdown", JsonVal.str "See (2:153) and (3:4)"),
         ("citations", JsonVal.arr []),
         ("uncertainty", JsonVal.null)]) ∧
    (parseJsonResponse "\x7b\"answer_markdown\": \"See (2:153) and (3:4)\", \"citations\": [], \"uncertainty\": null\x7d"
        ([⟨"(2:153)", 2, 153, "", "", 1, none, none⟩] :
          List PairedVerse)).uncertainty = some (.str advisoryMsg) := by
  constructor
  · rfl
  · have h := (C10_validation_advisory
      "\x7b\"answer_markdown\": \"See (2:153) and (3:4)\", \"citations\": [], \"uncertainty\": null\x7d"
      ([⟨"(2:153)", 2, 153, "", "", 1, none, none⟩] : List PairedVerse)
      (JsonVal.obj
        [("answer_markdown", JsonVal.str "See (2:153) and (3:4)"),
         ("citations", JsonVal.arr []),
         ("uncertainty", JsonVal.null)]) rfl rfl rfl).2.2.2 rfl
    rw [h, if_pos (by decide)]
